import Mathlib

/-!
Verification of the position-aggregation read model in
`src/hooks/useV3Positions.ts`.

The hooks are embedded as pure functions over an explicit environment
(`HookEnv`) holding the latest cached per-call results that the external
collaborators (`useSingleCallResult`, `useSingleContractMultipleData`,
`useAllIncentives`, `useDepositedTokenIds`) would supply on one
recomputation pass.  Each batched contract call is modelled as a function
from its argument (the token identifier, or owner-index pair) to a
`CallState`; mapping that function over the input list mirrors the
per-input call-state array the multicall hook returns.  Addresses are
strings, BigNumber token identifiers and balances are `Nat`, ticks are
`Int` (possibly absent, hence `Option Int`).
-/

namespace V3Positions

abbrev Address := String

/-- `AddressZero` from `@ethersproject/constants`. -/
def AddressZero : Address := "0x0000000000000000000000000000000000000000"

/-- One entry of the array returned by `useSingleContractMultipleData`:
the latest cached `{ result, loading, error }` for a single call.
`result` is the decoded value of interest (`result?.[0]` for single-value
returns, the whole struct for `positions`). -/
structure CallState (α : Type) where
  result : Option α
  loading : Bool
  error : Bool
deriving DecidableEq

/-- The pool-identity triple used by `toPoolKey`: token addresses and fee
tier.  In the source `token0`/`token1` may be a `Token` object or a plain
string; `toPoolKey` reads `.address` in the object case, so both collapse
to the address string. -/
structure PoolKey where
  token0 : Address
  token1 : Address
  fee : Nat
deriving DecidableEq

/-- `toPoolKey`: the template-string grouping key
`token0-token1-fee`. -/
def toPoolKey (p : PoolKey) : String :=
  p.token0 ++ "-" ++ p.token1 ++ "-" ++ toString p.fee

/-- An incentive record (`Incentive` from `useAllIncentives`): an opaque
payload associated with a pool.  Only the `pool` field is inspected by
this file's code; the rest is abstracted as a numeric payload so that
distinct incentives are distinguishable. -/
structure Incentive where
  pool : PoolKey
  payload : Nat
deriving DecidableEq

/-- The decoded result of the position manager's `positions(tokenId)`
call.  Word-sized numeric fields are `Nat`; ticks may be absent
(`undefined` in the untyped `Result`), hence `Option Int`. -/
structure PositionInfo where
  nonce : Nat
  operator : Address
  token0 : Address
  token1 : Address
  fee : Nat
  tickLower : Option Int
  tickUpper : Option Int
  liquidity : Nat
  feeGrowthInside0LastX128 : Nat
  feeGrowthInside1LastX128 : Nat
  tokensOwed0 : Nat
  tokensOwed1 : Nat
deriving DecidableEq

/-- `PositionDetails` from `types/position`: the output record built by
`useV3PositionsFromTokenIds`. -/
structure PositionDetails where
  token0 : Address
  token1 : Address
  fee : Nat
  tokenId : Nat
  owner : Address
  depositedInStaker : Bool
  feeGrowthInside0LastX128 : Nat
  feeGrowthInside1LastX128 : Nat
  liquidity : Nat
  nonce : Nat
  operator : Address
  tickLower : Option Int
  tickUpper : Option Int
  tokensOwed0 : Nat
  tokensOwed1 : Nat
  incentives : List Incentive
deriving DecidableEq

/-- `DepositedTokenIdsState` from `useDepositedTokenIds`; the source only
compares the state against `LOADING`. -/
inductive DepositedTokenIdsState where
  | INVALID
  | LOADING
  | LOADED
deriving DecidableEq

/-- The environment of externally supplied call results, fixed for one
recomputation pass.  Batched calls keyed by the same argument return the
same cached state, so each batch is a function of its argument. -/
structure HookEnv where
  /-- `positionManager.positions(tokenId)` call states. -/
  positionsCall : Nat → CallState PositionInfo
  /-- `positionManager.ownerOf(tokenId)` call states (`result?.[0]`). -/
  ownerOfCall : Nat → CallState Address
  /-- `staker.deposits(tokenId)` call states (`result?.[0]`, the deposit owner). -/
  depositsCall : Nat → CallState Address
  /-- `useAllIncentives().incentives` (possibly undefined). -/
  incentives : Option (List Incentive)
  /-- `useAllIncentives().loading`. -/
  incentivesLoading : Bool
  /-- `useSingleCallResult(positionManager, 'balanceOf', ...).loading`. -/
  balanceLoading : Bool
  /-- `balanceResult?.[0]?.toNumber()`. -/
  balanceResult : Option Nat
  /-- `useDepositedTokenIds(account).state`. -/
  depositedTokenIdsState : DepositedTokenIdsState
  /-- `useDepositedTokenIds(account).tokenIds` (possibly undefined). -/
  depositedTokenIds : Option (List Nat)
  /-- `positionManager.tokenOfOwnerByIndex(account, index)` call states
  (`result` decoded to the token identifier `BigNumber.from(result[0])`). -/
  tokenOfOwnerByIndexCall : Address → Nat → CallState Nat

/-- Result record of `useV3PositionsFromTokenIds` / `useV3Positions`
(`UseV3PositionsResults`). -/
structure UseV3PositionsResults where
  loading : Bool
  error : Bool
  positions : Option (List PositionDetails)
deriving DecidableEq

/-- JS-object lookup `memo[key]` for the accumulator of
`incentivesByPoolKey`, modelled as an association list. -/
def getGroup : List (String × List Incentive) → String → Option (List Incentive)
  | [], _ => none
  | (k, v) :: rest, key => if k = key then some v else getGroup rest key

/-- JS-object assignment `memo[key] = v` for the accumulator of
`incentivesByPoolKey`: overwrite in place, or append a fresh property. -/
def setGroup : List (String × List Incentive) → String → List Incentive →
    List (String × List Incentive)
  | [], key, v => [(key, v)]
  | (k, w) :: rest, key, v =>
      if k = key then (key, v) :: rest else (k, w) :: setGroup rest key v

/-- One step of the `incentives?.reduce` in `incentivesByPoolKey`:
`memo[key] = memo[key] ?? []; memo[key].push(incentive)`. -/
def updateGroups (memo : List (String × List Incentive)) (incentive : Incentive) :
    List (String × List Incentive) :=
  let key := toPoolKey incentive.pool
  setGroup memo key ((getGroup memo key).getD [] ++ [incentive])

/-- `incentivesByPoolKey`: group incentives by their pool key
(`incentives?.reduce(...) ?? {}`). -/
def incentivesByPoolKey (incentives : Option (List Incentive)) :
    List (String × List Incentive) :=
  (incentives.getD []).foldl updateGroups []

/-- The body of the `tokenIds.map((tokenId, i) => ...)` callback in
`useV3PositionsFromTokenIds`: build one `PositionDetails | null` from the
call states for one token identifier. -/
def mkPositionDetails (env : HookEnv) (groups : List (String × List Incentive))
    (tokenId : Nat) : Option PositionDetails :=
  let owner := (env.ownerOfCall tokenId).result
  let positionInfo := (env.positionsCall tokenId).result
  let depositOwner := (env.depositsCall tokenId).result
  match owner, positionInfo with
  | some owner, some info =>
      let depositedInStaker : Bool :=
        match depositOwner with
        | some d => d ≠ AddressZero
        | none => false
      let poolKey : PoolKey := ⟨info.token0, info.token1, info.fee⟩
      some {
        token0 := info.token0
        token1 := info.token1
        fee := info.fee
        tokenId := tokenId
        owner :=
          match depositOwner with
          | some d => if d ≠ AddressZero then d else owner
          | none => owner
        depositedInStaker := depositedInStaker
        feeGrowthInside0LastX128 := info.feeGrowthInside0LastX128
        feeGrowthInside1LastX128 := info.feeGrowthInside1LastX128
        liquidity := info.liquidity
        nonce := info.nonce
        operator := info.operator
        tickLower := info.tickLower
        tickUpper := info.tickUpper
        tokensOwed0 := info.tokensOwed0
        tokensOwed1 := info.tokensOwed1
        incentives := (getGroup groups (toPoolKey poolKey)).getD []
      }
  | _, _ => none

/-- The aggregate `loading` flag of `useV3PositionsFromTokenIds`:
`incentivesLoading || states.some(calls => calls.some(c => c.loading))`
over the three batched-call arrays. -/
def fromTokenIdsLoading (env : HookEnv) (tokenIds : Option (List Nat)) : Bool :=
  let inputs := tokenIds.getD []
  env.incentivesLoading ||
    (inputs.map env.positionsCall).any (fun c => c.loading) ||
    (inputs.map env.ownerOfCall).any (fun c => c.loading) ||
    (inputs.map env.depositsCall).any (fun c => c.loading)

/-- The aggregate `error` flag of `useV3PositionsFromTokenIds`:
`states.some(calls => calls.some(c => c.error))`. -/
def fromTokenIdsError (env : HookEnv) (tokenIds : Option (List Nat)) : Bool :=
  let inputs := tokenIds.getD []
  (inputs.map env.positionsCall).any (fun c => c.error) ||
    (inputs.map env.ownerOfCall).any (fun c => c.error) ||
    (inputs.map env.depositsCall).any (fun c => c.error)

/-- `useV3PositionsFromTokenIds`: positions are produced only when
`!loading && !error && tokenIds`; each entry is the mapped
`PositionDetails | null` with the nulls filtered out. -/
def useV3PositionsFromTokenIds (env : HookEnv) (tokenIds : Option (List Nat)) :
    UseV3PositionsResults :=
  let loading := fromTokenIdsLoading env tokenIds
  let error := fromTokenIdsError env tokenIds
  let groups := incentivesByPoolKey env.incentives
  { loading := loading
    error := error
    positions :=
      match tokenIds with
      | some tids =>
          if !loading && !error then
            some ((tids.map (mkPositionDetails env groups)).filterMap id)
          else none
      | none => none }

/-- `tokenIdsArgs` in `useV3Positions`: when both `accountBalance` and
`account` are truthy (a JS number is falsy at `0`), one
`[account, i]` request per index `0 ≤ i < accountBalance`. -/
def tokenIdsArgs (account : Option Address) (accountBalance : Option Nat) :
    List (Address × Nat) :=
  match accountBalance, account with
  | some n, some a => if n = 0 then [] else (List.range n).map (fun i => (a, i))
  | _, _ => []

/-- The per-request call states `tokenIdResults` in `useV3Positions`. -/
def tokenIdResults (env : HookEnv) (account : Option Address) : List (CallState Nat) :=
  (tokenIdsArgs account env.balanceResult).map
    (fun p => env.tokenOfOwnerByIndexCall p.1 p.2)

/-- The `tokenIds` memo in `useV3Positions`: for a truthy account, the
available enumeration results concatenated with the staking-deposited
identifiers (`?? []`); otherwise the empty list. -/
def resolvedTokenIds (env : HookEnv) (account : Option Address) : List Nat :=
  match account with
  | some _ =>
      ((tokenIdResults env account).filterMap (fun c => c.result)) ++
        (env.depositedTokenIds.getD [])
  | none => []

/-- `useV3Positions`: resolve the owner's token identifiers, delegate to
`useV3PositionsFromTokenIds`, and merge the loading flags. -/
def useV3Positions (env : HookEnv) (account : Option Address) :
    UseV3PositionsResults :=
  let someTokenIdsLoading :=
    decide (env.depositedTokenIdsState = DepositedTokenIdsState.LOADING) ||
      (tokenIdResults env account).any (fun c => c.loading)
  let inner := useV3PositionsFromTokenIds env (some (resolvedTokenIds env account))
  { loading := someTokenIdsLoading || env.balanceLoading || inner.loading
    error := inner.error
    positions := inner.positions }

/-- The `Pool` object from the v3 sdk, restricted to the fields this file
reads: the two token addresses, the fee tier and the current tick. -/
structure Pool where
  token0 : Address
  token1 : Address
  fee : Nat
  tickCurrent : Int
deriving DecidableEq

/-- Result record of `useV3PositionsForPool` (`PositionsForPoolResults`). -/
structure PositionsForPoolResults where
  loading : Bool
  inRangePositions : Option (List PositionDetails)
  outOfRangePositions : Option (List PositionDetails)
deriving DecidableEq

/-- The `relevantPositions` predicate of `useV3PositionsForPool`: exact
match of the pool's (token0, token1, fee) triple. -/
def poolMatches (pool : Pool) (p : PositionDetails) : Bool :=
  p.token0 == pool.token0 && p.token1 == pool.token1 && p.fee == pool.fee

/-- The in-range predicate of `useV3PositionsForPool`: `below`/`above`
are ternary (undefined when the tick bound is not a number), and the
position counts as in range only when both are booleans and neither
holds.  The out-of-range filter in the source is the exact negation of
this expression. -/
def inRangeCheck (pool : Pool) (p : PositionDetails) : Bool :=
  let below := p.tickLower.map (fun lo => decide (pool.tickCurrent < lo))
  let above := p.tickUpper.map (fun hi => decide (pool.tickCurrent ≥ hi))
  match below, above with
  | some b, some a => !b && !a
  | _, _ => false

/-- `useV3PositionsForPool`: early-return unless positions and pool are
defined and the aggregate still reports loading; otherwise classify the
pool-matching positions by the in-range predicate and its negation. -/
def useV3PositionsForPool (env : HookEnv) (account : Option Address)
    (pool : Option Pool) : PositionsForPoolResults :=
  let r := useV3Positions env account
  match r.positions, pool, r.loading with
  | some positions, some pool, true =>
      let relevantPositions := positions.filter (poolMatches pool)
      { loading := false
        inRangePositions := some (relevantPositions.filter (inRangeCheck pool))
        outOfRangePositions :=
          some (relevantPositions.filter (fun p => !(inRangeCheck pool p))) }
  | _, _, _ =>
      { loading := false
        inRangePositions := none
        outOfRangePositions := none }

/-! ### Helper lemmas -/

lemma getGroup_setGroup_self (m : List (String × List Incentive)) (key : String)
    (v : List Incentive) : getGroup (setGroup m key v) key = some v := by
  induction m with
  | nil => simp [setGroup, getGroup]
  | cons hd tl ih =>
      obtain ⟨k, w⟩ := hd
      by_cases hk : k = key
      · simp [setGroup, getGroup, hk]
      · simp [setGroup, getGroup, hk, ih]

lemma getGroup_setGroup_ne (m : List (String × List Incentive)) (key key' : String)
    (v : List Incentive) (h : key' ≠ key) :
    getGroup (setGroup m key v) key' = getGroup m key' := by
  induction m with
  | nil => simp [setGroup, getGroup, Ne.symm h]
  | cons hd tl ih =>
      obtain ⟨k, w⟩ := hd
      by_cases hk : k = key
      · subst hk
        simp [setGroup, getGroup, Ne.symm h, h]
      · simp only [setGroup, getGroup, if_neg hk]
        by_cases hk' : k = key'
        · simp [hk']
        · simp [hk', ih]

lemma getGroup_updateGroups (m : List (String × List Incentive)) (inc : Incentive)
    (key : String) :
    (getGroup (updateGroups m inc) key).getD [] =
      if toPoolKey inc.pool = key then (getGroup m key).getD [] ++ [inc]
      else (getGroup m key).getD [] := by
  by_cases hk : toPoolKey inc.pool = key
  · simp [updateGroups, hk, getGroup_setGroup_self]
  · simp [updateGroups, hk, getGroup_setGroup_ne _ _ _ _ (Ne.symm hk)]

lemma getGroup_foldl (incs : List Incentive) (m : List (String × List Incentive))
    (key : String) :
    (getGroup (incs.foldl updateGroups m) key).getD [] =
      (getGroup m key).getD [] ++ incs.filter (fun i => toPoolKey i.pool == key) := by
  induction incs generalizing m with
  | nil => simp
  | cons i is ih =>
      rw [List.foldl_cons, ih, getGroup_updateGroups]
      by_cases hk : toPoolKey i.pool = key
      · simp [hk, List.filter_cons]
      · simp [hk, List.filter_cons]

/-- The grouped-map lookup used for incentive attachment agrees with a
plain order-preserving filter of the source incentive list. -/
lemma incentivesByPoolKey_lookup (incentives : Option (List Incentive)) (key : String) :
    (getGroup (incentivesByPoolKey incentives) key).getD [] =
      (incentives.getD []).filter (fun i => toPoolKey i.pool == key) := by
  rw [incentivesByPoolKey, getGroup_foldl]
  simp [getGroup]

lemma positions_eq (env : HookEnv) (tids : List Nat) (ps : List PositionDetails)
    (h : (useV3PositionsFromTokenIds env (some tids)).positions = some ps) :
    ps = (tids.map (mkPositionDetails env (incentivesByPoolKey env.incentives))).filterMap id := by
  simp only [useV3PositionsFromTokenIds] at h
  split at h
  · exact (Option.some.injEq _ _ ▸ h).symm
  · exact absurd h (by simp)

lemma flags_false_of_positions_eq_some (env : HookEnv) (tids : List Nat)
    (ps : List PositionDetails)
    (h : (useV3PositionsFromTokenIds env (some tids)).positions = some ps) :
    fromTokenIdsLoading env (some tids) = false ∧
      fromTokenIdsError env (some tids) = false := by
  simp only [useV3PositionsFromTokenIds] at h
  split at h
  next hcond => simpa using hcond
  · exact absurd h (by simp)

lemma positions_some_of_flags_false (env : HookEnv) (tids : List Nat)
    (hl : fromTokenIdsLoading env (some tids) = false)
    (he : fromTokenIdsError env (some tids) = false) :
    (useV3PositionsFromTokenIds env (some tids)).positions =
      some ((tids.map (mkPositionDetails env (incentivesByPoolKey env.incentives))).filterMap id) := by
  simp [useV3PositionsFromTokenIds, hl, he]

lemma mem_positions (env : HookEnv) (tids : List Nat) (ps : List PositionDetails)
    (p : PositionDetails)
    (h : (useV3PositionsFromTokenIds env (some tids)).positions = some ps) :
    p ∈ ps ↔ ∃ tid ∈ tids,
      mkPositionDetails env (incentivesByPoolKey env.incentives) tid = some p := by
  rw [positions_eq env tids ps h]
  simp [List.mem_filterMap, List.mem_map]

/-- Inversion of one `tokenIds.map` callback step: what a produced
`PositionDetails` record looks like in terms of the per-token call
states. -/
lemma mkPositionDetails_eq_some (env : HookEnv) (groups : List (String × List Incentive))
    (tid : Nat) (p : PositionDetails)
    (h : mkPositionDetails env groups tid = some p) :
    ∃ o info, (env.ownerOfCall tid).result = some o ∧
      (env.positionsCall tid).result = some info ∧
      p.tokenId = tid ∧ p.token0 = info.token0 ∧ p.token1 = info.token1 ∧
      p.fee = info.fee ∧ p.tickLower = info.tickLower ∧ p.tickUpper = info.tickUpper ∧
      p.incentives =
        (getGroup groups (toPoolKey ⟨info.token0, info.token1, info.fee⟩)).getD [] ∧
      (∀ d, (env.depositsCall tid).result = some d → d ≠ AddressZero →
          p.owner = d ∧ p.depositedInStaker = true) ∧
      (((env.depositsCall tid).result = none ∨
          (env.depositsCall tid).result = some AddressZero) →
        p.owner = o ∧ p.depositedInStaker = false) := by
  simp only [mkPositionDetails] at h
  rcases ho : (env.ownerOfCall tid).result with _ | o
  · rw [ho] at h; exact absurd h (by simp)
  rcases hi : (env.positionsCall tid).result with _ | info
  · rw [ho, hi] at h; exact absurd h (by simp)
  rw [ho, hi] at h
  refine ⟨o, info, rfl, rfl, ?_⟩
  rcases hd : (env.depositsCall tid).result with _ | d
  · rw [hd] at h
    simp only [Option.some.injEq] at h
    subst h
    simp
  · rw [hd] at h
    by_cases hz : d = AddressZero
    · subst hz
      simp only [ne_eq, not_true_eq_false, if_false, ite_false, reduceIte] at h
      simp only [Option.some.injEq] at h
      subst h
      simp [AddressZero]
    · simp only [ne_eq, hz, not_false_eq_true, if_true, ite_true, reduceIte] at h
      simp only [Option.some.injEq] at h
      subst h
      refine ⟨rfl, rfl, rfl, rfl, rfl, rfl, rfl, ?_, ?_⟩
      · intro d' hd' _
        cases hd'
        simp [hz]
      · rintro (hcontra | hcontra) <;> cases hcontra
        exact absurd rfl hz

lemma positions_eq_filterMap (env : HookEnv) (tids : List Nat)
    (ps : List PositionDetails)
    (h : (useV3PositionsFromTokenIds env (some tids)).positions = some ps) :
    ps = tids.filterMap (mkPositionDetails env (incentivesByPoolKey env.incentives)) := by
  have := positions_eq env tids ps h
  simpa using this

lemma map_tokenId_filterMap (env : HookEnv) (groups : List (String × List Incentive))
    (tids : List Nat) :
    (tids.filterMap (mkPositionDetails env groups)).map
        (fun p => p.tokenId) =
      tids.filter (fun t => (mkPositionDetails env groups t).isSome) := by
  induction tids with
  | nil => rfl
  | cons t ts ih =>
      rcases hm : mkPositionDetails env groups t with _ | p
      · simp [List.filterMap_cons, hm, List.filter_cons, ih]
      · obtain ⟨o, info, _, _, htk, _⟩ :=
          mkPositionDetails_eq_some env groups t p hm
        simp [List.filterMap_cons, hm, List.filter_cons, ih, htk]

/-! ### Claims -/

/-- Claim C1: in `useV3PositionsFromTokenIds`, every token identifier in
the input list whose owner call result or position-details call result is
missing yields no record in the output positions list; when the aggregate
flags are clear the positions list is still produced (it is `some`), so
the identifier is silently dropped rather than reported as an error. -/
theorem missing_result_silently_dropped (env : HookEnv) (tids : List Nat) (tid : Nat)
    (hmem : tid ∈ tids)
    (hmiss : (env.ownerOfCall tid).result = none ∨ (env.positionsCall tid).result = none)
    (hl : (useV3PositionsFromTokenIds env (some tids)).loading = false)
    (he : (useV3PositionsFromTokenIds env (some tids)).error = false) :
    ((useV3PositionsFromTokenIds env (some tids)).positions).isSome = true ∧
      ∀ p ∈ ((useV3PositionsFromTokenIds env (some tids)).positions).getD [],
        p.tokenId ≠ tid := by
  have hl' : fromTokenIdsLoading env (some tids) = false := hl
  have he' : fromTokenIdsError env (some tids) = false := he
  have hsome := positions_some_of_flags_false env tids hl' he'
  refine ⟨by simp [hsome], ?_⟩
  intro p hp hne
  rw [hsome] at hp
  simp only [Option.getD_some] at hp
  rw [mem_positions env tids _ p hsome] at hp
  obtain ⟨tid', htid', hmk⟩ := hp
  obtain ⟨o, info, ho, hi, htok, _⟩ :=
    mkPositionDetails_eq_some env _ tid' p hmk
  have htt : tid' = tid := htok.symm.trans hne
  subst htt
  rcases hmiss with hm | hm
  · rw [hm] at ho; cases ho
  · rw [hm] at hi; cases hi

/-- Claim C2: for every produced position, if the staking-deposit owner
result for its token identifier is present and not the zero address then
the position's owner is that deposit owner and `depositedInStaker` is
true; otherwise (deposit owner missing or equal to the zero address) the
flag is false and the owner is the direct `ownerOf` result. -/
theorem owner_resolution (env : HookEnv) (tids : List Nat) (ps : List PositionDetails)
    (p : PositionDetails)
    (h : (useV3PositionsFromTokenIds env (some tids)).positions = some ps)
    (hp : p ∈ ps) :
    (∀ d, (env.depositsCall p.tokenId).result = some d → d ≠ AddressZero →
        p.owner = d ∧ p.depositedInStaker = true) ∧
      (((env.depositsCall p.tokenId).result = none ∨
          (env.depositsCall p.tokenId).result = some AddressZero) →
        p.depositedInStaker = false ∧
          ∀ o, (env.ownerOfCall p.tokenId).result = some o → p.owner = o) := by
  rw [mem_positions env tids ps p h] at hp
  obtain ⟨tid, htid, hmk⟩ := hp
  obtain ⟨o, info, ho, hi, htok, _, _, _, _, _, _, hdep, hnodep⟩ :=
    mkPositionDetails_eq_some env _ tid p hmk
  subst htok
  constructor
  · intro d hd hdz
    exact hdep d hd hdz
  · intro hcase
    obtain ⟨how, hflag⟩ := hnodep hcase
    refine ⟨hflag, ?_⟩
    intro o' ho'
    rw [ho] at ho'
    cases ho'
    exact how

/-- Claim C3: the aggregate loading flag of `useV3PositionsFromTokenIds`
is true iff the incentive fetch is loading or some individual call in one
of the three batches is loading; the aggregate error flag is true iff
some individual call errored; and whenever loading or error is true the
positions output is `none`. -/
theorem aggregate_flags (env : HookEnv) (tids : List Nat) :
    ((useV3PositionsFromTokenIds env (some tids)).loading = true ↔
      env.incentivesLoading = true ∨ ∃ tid ∈ tids,
        (env.positionsCall tid).loading = true ∨
          (env.ownerOfCall tid).loading = true ∨
            (env.depositsCall tid).loading = true) ∧
    ((useV3PositionsFromTokenIds env (some tids)).error = true ↔
      ∃ tid ∈ tids,
        (env.positionsCall tid).error = true ∨
          (env.ownerOfCall tid).error = true ∨
            (env.depositsCall tid).error = true) ∧
    ((useV3PositionsFromTokenIds env (some tids)).loading = true ∨
        (useV3PositionsFromTokenIds env (some tids)).error = true →
      (useV3PositionsFromTokenIds env (some tids)).positions = none) := by
  refine ⟨?_, ?_, ?_⟩
  · show fromTokenIdsLoading env (some tids) = true ↔ _
    simp only [fromTokenIdsLoading, Option.getD_some, Bool.or_eq_true,
      List.any_eq_true, List.mem_map]
    constructor
    · rintro (((h | ⟨c, ⟨t, ht, rfl⟩, hc⟩) | ⟨c, ⟨t, ht, rfl⟩, hc⟩) | ⟨c, ⟨t, ht, rfl⟩, hc⟩)
      · exact Or.inl h
      · exact Or.inr ⟨t, ht, Or.inl hc⟩
      · exact Or.inr ⟨t, ht, Or.inr (Or.inl hc)⟩
      · exact Or.inr ⟨t, ht, Or.inr (Or.inr hc)⟩
    · rintro (h | ⟨t, ht, (hc | hc | hc)⟩)
      · exact Or.inl (Or.inl (Or.inl h))
      · exact Or.inl (Or.inl (Or.inr ⟨_, ⟨t, ht, rfl⟩, hc⟩))
      · exact Or.inl (Or.inr ⟨_, ⟨t, ht, rfl⟩, hc⟩)
      · exact Or.inr ⟨_, ⟨t, ht, rfl⟩, hc⟩
  · show fromTokenIdsError env (some tids) = true ↔ _
    simp only [fromTokenIdsError, Option.getD_some, Bool.or_eq_true,
      List.any_eq_true, List.mem_map]
    constructor
    · rintro ((⟨c, ⟨t, ht, rfl⟩, hc⟩ | ⟨c, ⟨t, ht, rfl⟩, hc⟩) | ⟨c, ⟨t, ht, rfl⟩, hc⟩)
      · exact ⟨t, ht, Or.inl hc⟩
      · exact ⟨t, ht, Or.inr (Or.inl hc)⟩
      · exact ⟨t, ht, Or.inr (Or.inr hc)⟩
    · rintro ⟨t, ht, (hc | hc | hc)⟩
      · exact Or.inl (Or.inl ⟨_, ⟨t, ht, rfl⟩, hc⟩)
      · exact Or.inl (Or.inr ⟨_, ⟨t, ht, rfl⟩, hc⟩)
      · exact Or.inr ⟨_, ⟨t, ht, rfl⟩, hc⟩
  · intro h
    cases hL : fromTokenIdsLoading env (some tids) <;>
      cases hE : fromTokenIdsError env (some tids) <;>
        simp only [useV3PositionsFromTokenIds, hL, hE] at h ⊢ <;> simp_all

/-- Claim C7: every produced position's incentives list is exactly the
order-preserving filter of the source incentive list to those whose pool
key equals the key derived from the position's (token0, token1, fee). -/
theorem incentive_attachment (env : HookEnv) (tids : List Nat)
    (ps : List PositionDetails) (p : PositionDetails)
    (h : (useV3PositionsFromTokenIds env (some tids)).positions = some ps)
    (hp : p ∈ ps) :
    p.incentives = (env.incentives.getD []).filter
      (fun inc => toPoolKey inc.pool == toPoolKey ⟨p.token0, p.token1, p.fee⟩) := by
  rw [mem_positions env tids ps p h] at hp
  obtain ⟨tid, htid, hmk⟩ := hp
  obtain ⟨o, info, ho, hi, htok, ht0, ht1, hfee, _, _, hinc, _⟩ :=
    mkPositionDetails_eq_some env _ tid p hmk
  rw [hinc, ht0, ht1, hfee, incentivesByPoolKey_lookup]

/-- Claim C9: whenever `useV3PositionsFromTokenIds` produces a positions
list, the list of its token identifiers is a sublist of the input list
(order preserved, no new identifiers), its length never exceeds the
input's, and every produced identifier occurs in the input. -/
theorem positions_sublist_of_input (env : HookEnv) (tids : List Nat)
    (ps : List PositionDetails)
    (h : (useV3PositionsFromTokenIds env (some tids)).positions = some ps) :
    (ps.map (fun p => p.tokenId)).Sublist tids ∧ ps.length ≤ tids.length ∧
      ∀ p ∈ ps, p.tokenId ∈ tids := by
  have hps := positions_eq_filterMap env tids ps h
  have hsub : (ps.map (fun p => p.tokenId)).Sublist tids := by
    rw [hps, map_tokenId_filterMap]
    exact List.filter_sublist _
  refine ⟨hsub, ?_, ?_⟩
  · have := hsub.length_le
    simpa using this
  · intro p hp
    exact hsub.subset (List.mem_map_of_mem _ hp)

/-- Claim C6: for any account, the resolved token-identifier list is the
concatenation, in that order and without deduplication, of the available
index-enumeration results and the staking-deposited identifiers: the
occurrence count of every identifier adds up across the two sources, so
an identifier present in both appears (at least) twice. -/
theorem resolved_ids_concat (env : HookEnv) (a : Address) :
    resolvedTokenIds env (some a) =
      ((tokenIdResults env (some a)).filterMap (fun c => c.result)) ++
        (env.depositedTokenIds.getD []) ∧
    (∀ n : Nat, (resolvedTokenIds env (some a)).count n =
      ((tokenIdResults env (some a)).filterMap (fun c => c.result)).count n +
        (env.depositedTokenIds.getD []).count n) ∧
    (∀ n : Nat, n ∈ (tokenIdResults env (some a)).filterMap (fun c => c.result) →
      n ∈ env.depositedTokenIds.getD [] →
      2 ≤ (resolvedTokenIds env (some a)).count n) := by
  refine ⟨rfl, ?_, ?_⟩
  · intro n
    simp [resolvedTokenIds, List.count_append]
  · intro n h1 h2
    have c1 : 0 < ((tokenIdResults env (some a)).filterMap (fun c => c.result)).count n :=
      List.count_pos_iff.mpr h1
    have c2 : 0 < (env.depositedTokenIds.getD []).count n :=
      List.count_pos_iff.mpr h2
    have : (resolvedTokenIds env (some a)).count n =
        ((tokenIdResults env (some a)).filterMap (fun c => c.result)).count n +
          (env.depositedTokenIds.getD []).count n := by
      simp [resolvedTokenIds, List.count_append]
    omega

/-- Claim C8: the index-enumeration request list built by
`useV3Positions` for a present account and reported balance `n` has
exactly `n` entries, the `i`-th being `(account, i)`; in particular for
balance 2 the requests are `(account, 0)` and `(account, 1)`. -/
theorem balance_requests (a : Address) (n : Nat) :
    tokenIdsArgs (some a) (some 2) = [(a, 0), (a, 1)] ∧
    (tokenIdsArgs (some a) (some n)).length = n ∧
    ∀ i, i < n → (tokenIdsArgs (some a) (some n))[i]? = some (a, i) := by
  refine ⟨rfl, ?_, ?_⟩
  · by_cases hn : n = 0
    · subst hn; rfl
    · simp [tokenIdsArgs, hn]
  · intro i hi
    have hn : n ≠ 0 := by omega
    simp [tokenIdsArgs, hn, List.getElem?_range, hi]

/-- Claim C10: for a null/undefined account, `useV3Positions` resolves an
empty token-identifier list, no call can error, and once nothing is
loading the positions output is the empty list (`some []`), not
undefined. -/
theorem null_account_empty_positions (env : HookEnv)
    (hl : (useV3Positions env none).loading = false) :
    (useV3Positions env none).error = false ∧
      (useV3Positions env none).positions = some [] := by
  have hres : resolvedTokenIds env none = [] := rfl
  have hIL : env.incentivesLoading = false := by
    have hinner : fromTokenIdsLoading env (some (resolvedTokenIds env none)) = false := by
      simp only [useV3Positions, Bool.or_eq_false_iff] at hl
      exact hl.2
    rw [hres] at hinner
    simpa [fromTokenIdsLoading] using hinner
  have herr : fromTokenIdsError env (some (resolvedTokenIds env none)) = false := by
    rw [hres]; rfl
  have hload : fromTokenIdsLoading env (some (resolvedTokenIds env none)) = false := by
    rw [hres]; simp [fromTokenIdsLoading, hIL]
  constructor
  · show fromTokenIdsError env (some (resolvedTokenIds env none)) = false
    exact herr
  · show (useV3PositionsFromTokenIds env (some (resolvedTokenIds env none))).positions = some []
    rw [positions_some_of_flags_false env _ hload herr]
    rw [hres]
    rfl

lemma forPool_compute (env : HookEnv) (account : Option Address) (pl : Pool)
    (ps : List PositionDetails)
    (hps : (useV3Positions env account).positions = some ps)
    (hl : (useV3Positions env account).loading = true) :
    useV3PositionsForPool env account (some pl) =
      { loading := false
        inRangePositions := some ((ps.filter (poolMatches pl)).filter (inRangeCheck pl))
        outOfRangePositions :=
          some ((ps.filter (poolMatches pl)).filter (fun p => !(inRangeCheck pl p))) } := by
  simp only [useV3PositionsForPool, hps, hl]

lemma forPool_early (env : HookEnv) (account : Option Address) (pool : Option Pool)
    (h : (useV3Positions env account).loading = false ∨
      (useV3Positions env account).positions = none ∨ pool = none) :
    useV3PositionsForPool env account pool =
      { loading := false, inRangePositions := none, outOfRangePositions := none } := by
  rcases hpos : (useV3Positions env account).positions with _ | ps
  · rcases pool with _ | pl <;> rcases hld : (useV3Positions env account).loading <;>
      simp [useV3PositionsForPool, hpos, hld]
  · rcases pool with _ | pl
    · rcases hld : (useV3Positions env account).loading <;>
        simp [useV3PositionsForPool, hpos, hld]
    · rcases hld : (useV3Positions env account).loading
      · simp [useV3PositionsForPool, hpos, hld]
      · rcases h with h | h | h
        · rw [hld] at h; cases h
        · rw [hpos] at h; cases h
        · cases h

/-- Claim C5: `useV3PositionsForPool` computes the range classification
only when the aggregate still reports `loading = true` and both the
positions list and the pool are defined; whenever loading is `false`, or
positions or pool is undefined, it returns `loading = false` with both
buckets undefined. -/
theorem pool_filter_guard (env : HookEnv) (account : Option Address)
    (pool : Option Pool) :
    (((useV3Positions env account).loading = false ∨
        (useV3Positions env account).positions = none ∨ pool = none) →
      useV3PositionsForPool env account pool =
        { loading := false, inRangePositions := none, outOfRangePositions := none }) ∧
    (∀ ps pl, (useV3Positions env account).positions = some ps → pool = some pl →
      (useV3Positions env account).loading = true →
      useV3PositionsForPool env account pool =
        { loading := false
          inRangePositions :=
            some ((ps.filter (poolMatches pl)).filter (inRangeCheck pl))
          outOfRangePositions :=
            some ((ps.filter (poolMatches pl)).filter
              (fun p => !(inRangeCheck pl p))) }) := by
  constructor
  · exact forPool_early env account pool
  · intro ps pl hps hpl hl
    subst hpl
    exact forPool_compute env account pl ps hps hl

lemma inRangeCheck_some (pl : Pool) (p : PositionDetails) (lo hi : Int)
    (hlo : p.tickLower = some lo) (hhi : p.tickUpper = some hi) :
    inRangeCheck pl p = true ↔ lo ≤ pl.tickCurrent ∧ pl.tickCurrent < hi := by
  simp only [inRangeCheck, hlo, hhi, Option.map_some', Bool.and_eq_true,
    Bool.not_eq_true', decide_eq_false_iff_not, not_lt, ge_iff_le]
  omega

lemma inRangeCheck_none (pl : Pool) (p : PositionDetails)
    (h : p.tickLower = none ∨ p.tickUpper = none) :
    inRangeCheck pl p = false := by
  rcases h with h | h
  · simp [inRangeCheck, h]
  · rcases hl0 : p.tickLower with _ | lo <;> simp [inRangeCheck, h, hl0]

/-- Claim C4, amended: over the pool-matching positions, a position with
numeric bounds is in the in-range bucket iff
`tickLower ≤ currentTick < tickUpper`; a position with a non-numeric
bound is excluded from the in-range bucket but lands in the out-of-range
bucket (it is not excluded from both); and the out-of-range bucket is the
logical complement of the in-range bucket over the pool-matching set. -/
theorem range_classification (env : HookEnv) (account : Option Address) (pl : Pool)
    (ps : List PositionDetails)
    (hps : (useV3Positions env account).positions = some ps)
    (hl : (useV3Positions env account).loading = true) :
    ∀ p ∈ ps.filter (poolMatches pl),
      (∀ lo hi, p.tickLower = some lo → p.tickUpper = some hi →
        (p ∈ ((useV3PositionsForPool env account (some pl)).inRangePositions.getD []) ↔
          lo ≤ pl.tickCurrent ∧ pl.tickCurrent < hi)) ∧
      ((p.tickLower = none ∨ p.tickUpper = none) →
        p ∉ ((useV3PositionsForPool env account (some pl)).inRangePositions.getD []) ∧
          p ∈ ((useV3PositionsForPool env account (some pl)).outOfRangePositions.getD [])) ∧
      (p ∈ ((useV3PositionsForPool env account (some pl)).outOfRangePositions.getD []) ↔
        p ∉ ((useV3PositionsForPool env account (some pl)).inRangePositions.getD [])) := by
  intro p hp
  rw [forPool_compute env account pl ps hps hl]
  simp only [Option.getD_some, List.mem_filter]
  have hm := List.mem_filter.mp hp
  refine ⟨?_, ?_, ?_⟩
  · intro lo hi hlo hhi
    constructor
    · rintro ⟨-, hchk⟩
      exact (inRangeCheck_some pl p lo hi hlo hhi).mp hchk
    · intro hrange
      exact ⟨hm, (inRangeCheck_some pl p lo hi hlo hhi).mpr hrange⟩
  · intro hnone
    have hfalse := inRangeCheck_none pl p hnone
    constructor
    · rintro ⟨-, hchk⟩
      rw [hfalse] at hchk
      cases hchk
    · exact ⟨hm, by rw [hfalse]; rfl⟩
  · constructor
    · rintro ⟨-, hchk⟩ ⟨-, hchk'⟩
      rw [hchk'] at hchk
      simp at hchk
    · intro hnotin
      refine ⟨hm, ?_⟩
      by_cases hc : inRangeCheck pl p = true
      · exact absurd ⟨hm, hc⟩ hnotin
      · rw [Bool.not_eq_true] at hc
        rw [hc]
        rfl

/-! ### Concrete instances -/

/-- A sample decoded `positions` result with numeric tick bounds. -/
def sampleInfo : PositionInfo :=
  { nonce := 0, operator := "0xOP", token0 := "0xA", token1 := "0xB", fee := 500
    tickLower := some 100, tickUpper := some 200, liquidity := 7
    feeGrowthInside0LastX128 := 0, feeGrowthInside1LastX128 := 0
    tokensOwed0 := 0, tokensOwed1 := 0 }

/-- `sampleInfo` with a missing (non-numeric) lower tick bound. -/
def noTickInfo : PositionInfo := { sampleInfo with tickLower := none }

/-- A fully settled environment: no call loading or erroring, balance 2,
one deposited identifier, the owner result missing for identifier 5 and a
staking-deposit owner present for identifier 2. -/
def settledEnv : HookEnv :=
  { positionsCall := fun _ => ⟨some sampleInfo, false, false⟩
    ownerOfCall := fun t => if t = 5 then ⟨none, false, false⟩
      else ⟨some "0xOWNER", false, false⟩
    depositsCall := fun t => if t = 2 then ⟨some "0xSTAKER", false, false⟩
      else ⟨none, false, false⟩
    incentives := some [⟨⟨"0xA", "0xB", 500⟩, 0⟩, ⟨⟨"0xC", "0xD", 3000⟩, 1⟩]
    incentivesLoading := false
    balanceLoading := false
    balanceResult := some 2
    depositedTokenIdsState := DepositedTokenIdsState.LOADED
    depositedTokenIds := some [1]
    tokenOfOwnerByIndexCall := fun _ i => ⟨some (i + 1), false, false⟩ }

/-- `settledEnv` with the incentive fetch still loading. -/
def loadingEnv : HookEnv := { settledEnv with incentivesLoading := true }

/-- The position record that `settledEnv` produces for identifier 2. -/
def stakedPosition : PositionDetails :=
  { token0 := "0xA", token1 := "0xB", fee := 500, tokenId := 2
    owner := "0xSTAKER", depositedInStaker := true
    feeGrowthInside0LastX128 := 0, feeGrowthInside1LastX128 := 0
    liquidity := 7, nonce := 0, operator := "0xOP"
    tickLower := some 100, tickUpper := some 200
    tokensOwed0 := 0, tokensOwed1 := 0
    incentives := [⟨⟨"0xA", "0xB", 500⟩, 0⟩] }

/-- An environment whose balance call is still loading (so the aggregate
reports loading) while the inner position calls are all settled, feeding
one deposited identifier with numeric tick bounds. -/
def freshPoolEnv : HookEnv :=
  { settledEnv with balanceLoading := true, balanceResult := none }

/-- `freshPoolEnv` but the position's lower tick bound is missing. -/
def stalePoolEnv : HookEnv :=
  { freshPoolEnv with positionsCall := fun _ => ⟨some noTickInfo, false, false⟩ }

/-- The position record `freshPoolEnv` produces for identifier 1. -/
def inRangePosition : PositionDetails :=
  { token0 := "0xA", token1 := "0xB", fee := 500, tokenId := 1
    owner := "0xOWNER", depositedInStaker := false
    feeGrowthInside0LastX128 := 0, feeGrowthInside1LastX128 := 0
    liquidity := 7, nonce := 0, operator := "0xOP"
    tickLower := some 100, tickUpper := some 200
    tokensOwed0 := 0, tokensOwed1 := 0
    incentives := [⟨⟨"0xA", "0xB", 500⟩, 0⟩] }

/-- The position record `stalePoolEnv` produces for identifier 1. -/
def noTickPosition : PositionDetails := { inRangePosition with tickLower := none }

/-- The target pool: same (token0, token1, fee) triple as `sampleInfo`,
current tick 150. -/
def samplePool : Pool := ⟨"0xA", "0xB", 500, 150⟩

/-! ### Witnesses and counterexample -/

theorem missing_result_silently_dropped_witness :
    ((useV3PositionsFromTokenIds settledEnv (some [5])).positions).isSome = true ∧
      ∀ p ∈ ((useV3PositionsFromTokenIds settledEnv (some [5])).positions).getD [],
        p.tokenId ≠ 5 :=
  missing_result_silently_dropped settledEnv [5] 5 (by decide) (Or.inl rfl) rfl rfl

theorem owner_resolution_witness :
    stakedPosition.owner = "0xSTAKER" ∧ stakedPosition.depositedInStaker = true :=
  (owner_resolution settledEnv [2] [stakedPosition] stakedPosition (by decide)
    (by decide)).1 "0xSTAKER" rfl (by decide)

theorem aggregate_flags_witness :
    (useV3PositionsFromTokenIds loadingEnv (some [])).positions = none :=
  (aggregate_flags loadingEnv []).2.2 (Or.inl rfl)

theorem incentive_attachment_witness :
    stakedPosition.incentives = ((settledEnv.incentives).getD []).filter
      (fun inc => toPoolKey inc.pool ==
        toPoolKey ⟨stakedPosition.token0, stakedPosition.token1, stakedPosition.fee⟩) :=
  incentive_attachment settledEnv [2] [stakedPosition] stakedPosition (by decide)
    (by decide)

theorem positions_sublist_of_input_witness :
    (([stakedPosition].map (fun p => p.tokenId)).Sublist [2]) ∧
      ([stakedPosition] : List PositionDetails).length ≤ ([2] : List Nat).length ∧
      ∀ p ∈ [stakedPosition], p.tokenId ∈ [2] :=
  positions_sublist_of_input settledEnv [2] [stakedPosition] (by decide)

theorem resolved_ids_concat_witness :
    2 ≤ (resolvedTokenIds settledEnv (some "0xU")).count 1 :=
  (resolved_ids_concat settledEnv "0xU").2.2 1 (by decide) (by decide)

theorem balance_requests_witness :
    (tokenIdsArgs (some "0xU") (some 2))[1]? = some ("0xU", 1) :=
  (balance_requests "0xU" 2).2.2 1 (by decide)

theorem null_account_empty_positions_witness :
    (useV3Positions settledEnv none).error = false ∧
      (useV3Positions settledEnv none).positions = some [] :=
  null_account_empty_positions settledEnv rfl

theorem pool_filter_guard_witness :
    useV3PositionsForPool settledEnv (some "0xU") none =
      { loading := false, inRangePositions := none, outOfRangePositions := none } :=
  (pool_filter_guard settledEnv (some "0xU") none).1 (Or.inr (Or.inr rfl))

/-- Refutation of claim C4 as stated: a position with a non-numeric lower
tick bound is not excluded from both buckets — on this concrete input it
appears in the out-of-range bucket. -/
theorem range_classification_counterexample :
    noTickPosition.tickLower = none ∧
      (useV3PositionsForPool stalePoolEnv (some "0xU") (some samplePool)).outOfRangePositions =
        some [noTickPosition] := by
  constructor
  · rfl
  · decide

theorem range_classification_witness :
    inRangePosition ∈
      ((useV3PositionsForPool freshPoolEnv (some "0xU") (some samplePool)).inRangePositions.getD []) :=
  ((range_classification freshPoolEnv (some "0xU") samplePool [inRangePosition]
      (by decide) rfl inRangePosition (by decide)).1 100 200 rfl rfl).mpr (by decide)

end V3Positions
